import Mathlib

/-!
Verification of `robopianist/suite/composite_reward.py`.

Shallow embedding conventions:
* Python `float` rewards are modelled by `ℚ` (the claims under study are about
  control flow and exact summation structure, not rounding).
* A Python reward callable, which may raise, is modelled as a function into
  `Except String Reward`; the `String` carries the exception description.
* A Python `dict` (insertion-ordered, in-place value overwrite on an existing
  key) is modelled by an association list with `dictInsert` / `dictLookup` /
  `dictRemove` mirroring `d[k] = v`, `d[k]` and `del d[k]`.
* Exceptions that escape a method leave the already-performed mutations of the
  receiver in place, so mutating methods return the (possibly partially
  updated) object next to the `Except` outcome.
* To make the order of external reward-function invocations observable,
  `compute` additionally returns the list of invoked channel/term names in
  invocation order (each entry corresponds to exactly one call made with the
  `physics` argument).
* The aliasing behaviour of the `reward_terms` property (`return
  self._reward_terms` hands out the internal dict object itself) is modelled
  separately with an explicit store of dict objects indexed by references,
  since value-level structures cannot express Python reference semantics.
-/

namespace CompositeRewardSpec

/-- `Reward = float` from the source, modelled as `ℚ`. -/
abbrev Reward : Type := ℚ

/-- `RewardFn = Callable[[mjcf.Physics], Reward]`; the physics-state type is an
opaque parameter `P`, and the callable may raise. -/
abbrev RewardFn (P : Type) : Type := P → Except String Reward

/-- Python `d[k] = v` on an insertion-ordered dict: overwrite in place if the
key is present, else append at the end. -/
def dictInsert {α : Type} : List (String × α) → String → α → List (String × α)
  | [], k, v => [(k, v)]
  | (k', v') :: rest, k, v =>
    if k' = k then (k, v) :: rest else (k', v') :: dictInsert rest k v

/-- Python `d[k]`, as an `Option` (the claims only need presence/value). -/
def dictLookup {α : Type} : List (String × α) → String → Option α
  | [], _ => none
  | (k', v') :: rest, k => if k' = k then some v' else dictLookup rest k

/-- Python `del d[k]`: removes the entry for `k`, raising `KeyError` if absent
(in which case the dict is untouched). -/
def dictRemove {α : Type} : List (String × α) → String → Except String (List (String × α))
  | [], k => .error ("KeyError: " ++ k)
  | (k', v') :: rest, k =>
    if k' = k then .ok rest
    else Except.map (fun r => (k', v') :: r) (dictRemove rest k)

/-- `class CompositeReward`: `_reward_fns` and `_reward_terms` dicts. The
`reward_fns` / `reward_terms` properties are the structure projections. -/
structure CompositeReward (P : Type) where
  reward_fns : List (String × RewardFn P)
  reward_terms : List (String × Reward)

/-- `CompositeReward.add`: `self._reward_fns[name] = reward_fn`. -/
def CompositeReward.add {P : Type} (c : CompositeReward P) (name : String)
    (reward_fn : RewardFn P) : CompositeReward P :=
  { c with reward_fns := dictInsert c.reward_fns name reward_fn }

/-- `CompositeReward.remove`: `del self._reward_fns[name]`; on `KeyError` the
object is unchanged. -/
def CompositeReward.remove {P : Type} (c : CompositeReward P) (name : String) :
    Except String Unit × CompositeReward P :=
  match dictRemove c.reward_fns name with
  | .error msg => (.error msg, c)
  | .ok fns => (.ok (), { c with reward_fns := fns })

/-- The `for name, reward_fn in self._reward_fns.items():` loop of
`CompositeReward.compute`, threading the running sum, the `_reward_terms`
dict and the trace of invoked names; an exception from a reward function
aborts the loop, keeping the mutations performed so far. -/
def computeLoop {P : Type} (physics : P) :
    List (String × RewardFn P) → Reward → List (String × Reward) → List String →
      Except String Reward × List (String × Reward) × List String
  | [], sum_of_rewards, terms, tr => (.ok sum_of_rewards, terms, tr)
  | (name, reward_fn) :: rest, sum_of_rewards, terms, tr =>
    match reward_fn physics with
    | .error msg => (.error msg, terms, tr ++ [name])
    | .ok rew =>
      computeLoop physics rest (sum_of_rewards + rew) (dictInsert terms name rew) (tr ++ [name])

/-- `CompositeReward.compute`: runs the loop from `sum_of_rewards = 0.0` over
the current `_reward_terms`, returning the outcome, the updated object and the
invocation trace. -/
def CompositeReward.compute {P : Type} (c : CompositeReward P) (physics : P) :
    Except String Reward × CompositeReward P × List String :=
  let r := computeLoop physics c.reward_fns 0 c.reward_terms []
  (r.1, { c with reward_terms := r.2.1 }, r.2.2)

/-- The fold that `compute`'s loop performs on `_reward_terms` when every
invoked function returns normally with value `f name`. -/
def termsFold (f : String → Reward) {P : Type} (fns : List (String × RewardFn P))
    (terms : List (String × Reward)) : List (String × Reward) :=
  fns.foldl (fun t p => dictInsert t p.1 (f p.1)) terms

/-- `class TieredReward`: three mandatory channel slots set at construction,
two optional slots defaulting to `None`. -/
structure TieredReward (P : Type) where
  key_press_reward_ : RewardFn P
  sustain_reward_ : RewardFn P
  energy_reward_ : RewardFn P
  fingering_reward_ : Option (RewardFn P)
  forearm_reward_ : Option (RewardFn P)

/-- `TieredReward.__init__(key_press_reward, sustain_reward, energy_reward)`:
the optional slots start as `None`. -/
def TieredReward.init {P : Type} (key_press_reward sustain_reward energy_reward : RewardFn P) :
    TieredReward P :=
  ⟨key_press_reward, sustain_reward, energy_reward, none, none⟩

/-- `TieredReward.add`: stores into the recognized optional slot, else raises
`ValueError(f"Cannot add {name}")` leaving the object unchanged. -/
def TieredReward.add {P : Type} (t : TieredReward P) (name : String) (reward_fn : RewardFn P) :
    Except String Unit × TieredReward P :=
  if name = "fingering_reward" then (.ok (), { t with fingering_reward_ := some reward_fn })
  else if name = "forearm_reward" then (.ok (), { t with forearm_reward_ := some reward_fn })
  else (.error ("Cannot add " ++ name), t)

/-- `TieredReward.remove`: unconditionally raises
`ValueError(f"cannot remove {name}")`. -/
def TieredReward.remove {P : Type} (t : TieredReward P) (name : String) :
    Except String Unit × TieredReward P :=
  (.error ("cannot remove " ++ name), t)

/-- `TieredReward.compute`, line by line: the three mandatory channels are
invoked first; then `fingering_reward_(physics) if fingering_reward_ else 0.0`
followed by `if not self.fingering_reward_: assert False` (a function object
is always truthy, so both conditionals test `None`-ness and the assert fires
exactly when the slot is `None`, after the three mandatory calls and before
any forearm call); then the forearm conditional call; then the gated sum. The
second component is the trace of channel invocations in order. -/
def TieredReward.compute {P : Type} (t : TieredReward P) (physics : P) :
    Except String Reward × List String :=
  match t.key_press_reward_ physics with
  | .error msg => (.error msg, ["key_press_reward"])
  | .ok key_press_rew =>
    match t.sustain_reward_ physics with
    | .error msg => (.error msg, ["key_press_reward", "sustain_reward"])
    | .ok sustain_reward =>
      match t.energy_reward_ physics with
      | .error msg => (.error msg, ["key_press_reward", "sustain_reward", "energy_reward"])
      | .ok energy_reward =>
        match t.fingering_reward_ with
        | none =>
          (.error "AssertionError",
           ["key_press_reward", "sustain_reward", "energy_reward"])
        | some fingering_fn =>
          match fingering_fn physics with
          | .error msg =>
            (.error msg,
             ["key_press_reward", "sustain_reward", "energy_reward", "fingering_reward"])
          | .ok fingering_reward =>
            match t.forearm_reward_ with
            | none =>
              let forearm_reward : Reward := 0
              let sum_of_rewards := key_press_rew + sustain_reward + fingering_reward
              (.ok (if key_press_rew > 0.5 then
                      sum_of_rewards + (energy_reward + forearm_reward)
                    else sum_of_rewards),
               ["key_press_reward", "sustain_reward", "energy_reward", "fingering_reward"])
            | some forearm_fn =>
              match forearm_fn physics with
              | .error msg =>
                (.error msg,
                 ["key_press_reward", "sustain_reward", "energy_reward", "fingering_reward",
                  "forearm_reward"])
              | .ok forearm_reward =>
                let sum_of_rewards := key_press_rew + sustain_reward + fingering_reward
                (.ok (if key_press_rew > 0.5 then
                        sum_of_rewards + (energy_reward + forearm_reward)
                      else sum_of_rewards),
                 ["key_press_reward", "sustain_reward", "energy_reward", "fingering_reward",
                  "forearm_reward"])

/-- Reference-semantics model for the `reward_terms` property: a store maps
dict references (addresses) to dict contents. -/
def Store : Type := Nat → List (String × Reward)

/-- A `CompositeReward` object as the Python runtime sees it: its
`_reward_terms` field holds a reference to a dict object in the store. -/
structure CompositeRewardObj where
  reward_terms_ref : Nat

/-- `@property reward_terms: return self._reward_terms` — the property returns
the internal dict object itself (i.e. its reference), not a copy. -/
def CompositeRewardObj.reward_terms (obj : CompositeRewardObj) : Nat :=
  obj.reward_terms_ref

/-- A caller performing `d[k] = v` on a dict object it holds a reference to:
the store is updated at that reference. -/
def storeWrite (s : Store) (addr : Nat) (k : String) (v : Reward) : Store :=
  fun a => if a = addr then dictInsert (s a) k v else s a

/-! Concrete instances used by the witnesses and the counterexample. -/

def c1ex : CompositeReward Unit :=
  { reward_fns := [("a", fun _ => Except.ok (1 : ℚ)), ("b", fun _ => Except.ok 2)],
    reward_terms := [("a", 5)] }

def f1ex : String → Reward := fun n => if n = "a" then 1 else 2

def t2aEx : TieredReward Unit :=
  { key_press_reward_ := fun _ => Except.ok (0.3 : ℚ)
    sustain_reward_ := fun _ => Except.ok 0.2
    energy_reward_ := fun _ => Except.ok 1
    fingering_reward_ := some fun _ => Except.ok 0.1
    forearm_reward_ := some fun _ => Except.ok 1 }

def t2bEx : TieredReward Unit :=
  { key_press_reward_ := fun _ => Except.ok (0.6 : ℚ)
    sustain_reward_ := fun _ => Except.ok 0.2
    energy_reward_ := fun _ => Except.ok 1
    fingering_reward_ := some fun _ => Except.ok 0.1
    forearm_reward_ := some fun _ => Except.ok 1 }

def t3Ex : TieredReward Unit :=
  TieredReward.init (fun _ => Except.ok 1) (fun _ => Except.ok 1) (fun _ => Except.ok 1)

def a4fn : RewardFn Unit := fun _ => Except.ok 1

def b4fn : RewardFn Unit := fun _ => Except.error "boom"

def c4fn : RewardFn Unit := fun _ => Except.ok 3

def c4Ex : CompositeReward Unit :=
  { reward_fns := [("a", a4fn), ("b", b4fn), ("c", c4fn)],
    reward_terms := [("b", 7)] }

def f4Ex : String → Reward := fun _ => 1

def c5Ex : CompositeReward Unit :=
  { reward_fns := [("a", fun _ => Except.ok (1 : ℚ))], reward_terms := [] }

def t6Ex : TieredReward Unit :=
  TieredReward.init (fun _ => Except.ok 1) (fun _ => Except.ok 1) (fun _ => Except.ok 1)

def f6Ex : RewardFn Unit := fun _ => Except.ok 4

def c8Ex : CompositeReward Unit :=
  { reward_fns := [("a", fun _ => Except.ok (1 : ℚ)), ("b", fun _ => Except.ok 2)],
    reward_terms := [("a", 1), ("b", 2)] }

def c8Ex' : CompositeReward Unit :=
  { reward_fns := [("a", fun _ => Except.ok (1 : ℚ))],
    reward_terms := [("a", 1), ("b", 2)] }

def f8Ex : String → Reward := fun _ => 1

def obj9Ex : CompositeRewardObj := ⟨0⟩

def store9Ex : Store := fun _ => []

def t10Ex : TieredReward Unit :=
  TieredReward.init (fun _ => Except.ok 2) (fun _ => Except.ok 3) (fun _ => Except.ok 4)

/-! Helper lemmas about the dict model and the compute loop. -/

theorem dictLookup_dictInsert_self {α : Type} (l : List (String × α)) (k : String) (v : α) :
    dictLookup (dictInsert l k v) k = some v := by
  induction l with
  | nil => simp [dictInsert, dictLookup]
  | cons p rest ih =>
    obtain ⟨k', v'⟩ := p
    by_cases h : k' = k
    · simp [dictInsert, dictLookup, h]
    · simp [dictInsert, dictLookup, h, ih]

theorem dictLookup_dictInsert_ne {α : Type} (l : List (String × α)) (k k' : String) (v : α)
    (h : k' ≠ k) : dictLookup (dictInsert l k v) k' = dictLookup l k' := by
  induction l with
  | nil => simp [dictInsert, dictLookup, Ne.symm h]
  | cons p rest ih =>
    obtain ⟨k₁, v₁⟩ := p
    by_cases h₁ : k₁ = k
    · subst h₁
      simp [dictInsert, dictLookup, Ne.symm h]
    · simp only [dictInsert, if_neg h₁, dictLookup]
      by_cases h₂ : k₁ = k'
      · simp [h₂]
      · simp [h₂, ih]

theorem dictLookup_termsFold_not_mem (f : String → Reward) {P : Type} :
    ∀ (fns : List (String × RewardFn P)) (terms : List (String × Reward)) (k : String),
      k ∉ fns.map Prod.fst →
      dictLookup (termsFold f fns terms) k = dictLookup terms k := by
  intro fns
  induction fns with
  | nil => intro terms k _; rfl
  | cons p rest ih =>
    intro terms k hk
    simp only [List.map_cons, List.mem_cons, not_or] at hk
    simp only [termsFold, List.foldl_cons]
    rw [show rest.foldl (fun t q => dictInsert t q.1 (f q.1)) (dictInsert terms p.1 (f p.1)) =
          termsFold f rest (dictInsert terms p.1 (f p.1)) from rfl]
    rw [ih _ k hk.2, dictLookup_dictInsert_ne _ _ _ _ hk.1]

theorem dictLookup_termsFold_mem (f : String → Reward) {P : Type} :
    ∀ (fns : List (String × RewardFn P)) (terms : List (String × Reward)),
      (fns.map Prod.fst).Nodup →
      ∀ p ∈ fns, dictLookup (termsFold f fns terms) p.1 = some (f p.1) := by
  intro fns
  induction fns with
  | nil => intro terms _ p hp; cases hp
  | cons q rest ih =>
    intro terms hnd p hp
    simp only [List.map_cons, List.nodup_cons] at hnd
    simp only [termsFold, List.foldl_cons]
    rw [show rest.foldl (fun t r => dictInsert t r.1 (f r.1)) (dictInsert terms q.1 (f q.1)) =
          termsFold f rest (dictInsert terms q.1 (f q.1)) from rfl]
    rcases List.mem_cons.mp hp with h | h
    · subst h
      rw [dictLookup_termsFold_not_mem f rest _ p.1 hnd.1, dictLookup_dictInsert_self]
    · exact ih _ hnd.2 p h

theorem computeLoop_ok {P : Type} (physics : P) (f : String → Reward) :
    ∀ (fns : List (String × RewardFn P)) (acc : Reward) (terms : List (String × Reward))
      (tr : List String),
      (∀ p ∈ fns, p.2 physics = Except.ok (f p.1)) →
      computeLoop physics fns acc terms tr =
        (Except.ok (acc + (fns.map fun p => f p.1).sum),
         termsFold f fns terms,
         tr ++ fns.map Prod.fst) := by
  intro fns
  induction fns with
  | nil => intro acc terms tr _; simp [computeLoop, termsFold]
  | cons p rest ih =>
    intro acc terms tr hok
    obtain ⟨name, reward_fn⟩ := p
    have hp : reward_fn physics = Except.ok (f name) := hok _ (List.mem_cons_self _ _)
    have hrest : ∀ q ∈ rest, q.2 physics = Except.ok (f q.1) :=
      fun q hq => hok q (List.mem_cons_of_mem _ hq)
    simp only [computeLoop, hp]
    rw [ih _ _ _ hrest]
    simp [termsFold, add_assoc]

theorem computeLoop_error {P : Type} (physics : P) (f : String → Reward)
    (name : String) (fn : RewardFn P) (post : List (String × RewardFn P)) (msg : String) :
    ∀ (pre : List (String × RewardFn P)) (acc : Reward) (terms : List (String × Reward))
      (tr : List String),
      (∀ p ∈ pre, p.2 physics = Except.ok (f p.1)) →
      fn physics = Except.error msg →
      computeLoop physics (pre ++ (name, fn) :: post) acc terms tr =
        (Except.error msg,
         termsFold f pre terms,
         tr ++ pre.map Prod.fst ++ [name]) := by
  intro pre
  induction pre with
  | nil =>
    intro acc terms tr _ herr
    simp [computeLoop, herr, termsFold]
  | cons p rest ih =>
    intro acc terms tr hok herr
    obtain ⟨n₁, fn₁⟩ := p
    have hp : fn₁ physics = Except.ok (f n₁) := hok _ (List.mem_cons_self _ _)
    have hrest : ∀ q ∈ rest, q.2 physics = Except.ok (f q.1) :=
      fun q hq => hok q (List.mem_cons_of_mem _ hq)
    simp only [List.cons_append, computeLoop, hp, List.append_eq]
    rw [ih _ _ _ hrest herr]
    simp [termsFold]

theorem dictRemove_error_of_not_mem {α : Type} :
    ∀ (l : List (String × α)) (k : String), dictLookup l k = none →
      dictRemove l k = Except.error ("KeyError: " ++ k) := by
  intro l
  induction l with
  | nil => intro k _; rfl
  | cons p rest ih =>
    intro k hk
    obtain ⟨k', v'⟩ := p
    by_cases h : k' = k
    · simp [dictLookup, h] at hk
    · simp only [dictLookup, if_neg h] at hk
      simp [dictRemove, if_neg h, ih k hk, Except.map]

theorem dictRemove_ok_not_mem {α : Type} :
    ∀ (l l' : List (String × α)) (k : String), (l.map Prod.fst).Nodup →
      dictRemove l k = Except.ok l' → k ∉ l'.map Prod.fst := by
  intro l
  induction l with
  | nil => intro l' k _ h; simp [dictRemove] at h
  | cons p rest ih =>
    intro l' k hnd h
    obtain ⟨k', v'⟩ := p
    simp only [List.map_cons, List.nodup_cons] at hnd
    simp only [dictRemove] at h
    split at h
    · rename_i hk
      subst hk
      injection h with h
      subst h
      exact hnd.1
    · rename_i hk
      cases hrec : dictRemove rest k with
      | error msg => rw [hrec] at h; simp [Except.map] at h
      | ok r =>
        rw [hrec] at h
        simp only [Except.map, Except.ok.injEq] at h
        subst h
        simp only [List.map_cons, List.mem_cons, not_or]
        exact ⟨Ne.symm hk, ih r k hnd.2 hrec⟩

theorem dictRemove_ok_lookup_ne {α : Type} :
    ∀ (l l' : List (String × α)) (k : String), dictRemove l k = Except.ok l' →
      ∀ k', k' ≠ k → dictLookup l' k' = dictLookup l k' := by
  intro l
  induction l with
  | nil => intro l' k h; simp [dictRemove] at h
  | cons p rest ih =>
    intro l' k h k' hk'
    obtain ⟨k₁, v₁⟩ := p
    simp only [dictRemove] at h
    split at h
    · rename_i hk
      subst hk
      injection h with h
      subst h
      simp [dictLookup, Ne.symm hk']
    · rename_i hk
      cases hrec : dictRemove rest k with
      | error msg => rw [hrec] at h; simp [Except.map] at h
      | ok r =>
        rw [hrec] at h
        simp only [Except.map, Except.ok.injEq] at h
        subst h
        simp only [dictLookup]
        by_cases h₂ : k₁ = k'
        · simp [h₂]
        · simp [h₂, ih r k hrec k' hk']

/-! Claim theorems. -/

/-- C1: For every Simple Aggregator whose registered names are distinct (as
produced by any sequence of `add` calls), `compute` invokes each registered
reward function exactly once, in registration order, with the physics state
(the trace equals the list of registered names in order), returns the exact
sum of their return values, and afterwards `reward_terms` maps each
registered name to the value its function returned on this call, overwriting
any prior value. -/
theorem composite_compute_sum_and_terms {P : Type} (c : CompositeReward P) (physics : P)
    (f : String → Reward)
    (hnd : (c.reward_fns.map Prod.fst).Nodup)
    (hok : ∀ p ∈ c.reward_fns, p.2 physics = Except.ok (f p.1)) :
    (c.compute physics).1 = Except.ok ((c.reward_fns.map fun p => f p.1).sum) ∧
    (c.compute physics).2.2 = c.reward_fns.map Prod.fst ∧
    ∀ p ∈ c.reward_fns,
      dictLookup (c.compute physics).2.1.reward_terms p.1 = some (f p.1) := by
  have hloop := computeLoop_ok physics f c.reward_fns 0 c.reward_terms [] hok
  simp only [CompositeReward.compute, hloop]
  refine ⟨by simp, by simp, ?_⟩
  intro p hp
  exact dictLookup_termsFold_mem f c.reward_fns c.reward_terms hnd p hp

theorem composite_compute_sum_and_terms_witness :
    (c1ex.compute ()).1 = Except.ok ((c1ex.reward_fns.map fun p => f1ex p.1).sum) ∧
    (c1ex.compute ()).2.2 = c1ex.reward_fns.map Prod.fst ∧
    ∀ p ∈ c1ex.reward_fns,
      dictLookup (c1ex.compute ()).2.1.reward_terms p.1 = some (f1ex p.1) :=
  composite_compute_sum_and_terms c1ex () f1ex (by decide)
    (by
      intro p hp
      simp only [c1ex, List.mem_cons, List.not_mem_nil, or_false] at hp
      rcases hp with rfl | rfl <;> rfl)

/-- C2: For every Tiered Aggregator with all five channels registered and
returning normally, `compute` returns `key_press + sustain + fingering` when
`key_press ≤ 0.5` (the gate is strict, so it stays closed at exactly `0.5`)
and `key_press + sustain + fingering + energy + forearm` when
`key_press > 0.5`. -/
theorem tiered_compute_gate {P : Type} (t : TieredReward P) (physics : P)
    (kp s en f fo : Reward) (ffn gfn : RewardFn P)
    (hfing : t.fingering_reward_ = some ffn)
    (hfore : t.forearm_reward_ = some gfn)
    (hkp : t.key_press_reward_ physics = Except.ok kp)
    (hs : t.sustain_reward_ physics = Except.ok s)
    (hen : t.energy_reward_ physics = Except.ok en)
    (hf : ffn physics = Except.ok f)
    (hfo : gfn physics = Except.ok fo) :
    (kp ≤ 0.5 → (t.compute physics).1 = Except.ok (kp + s + f)) ∧
    (0.5 < kp → (t.compute physics).1 = Except.ok (kp + s + f + en + fo)) := by
  simp only [TieredReward.compute, hkp, hs, hen, hfing, hf, hfore, hfo]
  constructor
  · intro h
    simp [if_neg (not_lt.mpr h)]
  · intro h
    simp only [gt_iff_lt, if_pos h]
    exact congrArg Except.ok (by ring)

theorem tiered_compute_gate_witness :
    (t2aEx.compute ()).1 = Except.ok ((0.6 : ℚ)) ∧
    (t2bEx.compute ()).1 = Except.ok ((2.9 : ℚ)) := by
  constructor
  · have h := (tiered_compute_gate t2aEx () 0.3 0.2 1 0.1 1 _ _ rfl rfl rfl rfl rfl rfl
      rfl).1 (by norm_num)
    rw [h]
    norm_num
  · have h := (tiered_compute_gate t2bEx () 0.6 0.2 1 0.1 1 _ _ rfl rfl rfl rfl rfl rfl
      rfl).2 (by norm_num)
    rw [h]
    norm_num

/-- C3: For every Tiered Aggregator whose fingering channel was never
registered, every `compute` call aborts with an exception (either a mandatory
channel raised first, or the `assert False` contract violation) — it never
returns a sum with zero substituted for the fingering reward. -/
theorem tiered_compute_missing_fingering_aborts {P : Type} (t : TieredReward P) (physics : P)
    (hfing : t.fingering_reward_ = none) :
    ∃ msg, (t.compute physics).1 = Except.error msg := by
  simp only [TieredReward.compute]
  cases hkp : t.key_press_reward_ physics with
  | error msg => exact ⟨msg, rfl⟩
  | ok kp =>
    cases hs : t.sustain_reward_ physics with
    | error msg => exact ⟨msg, rfl⟩
    | ok s =>
      cases hen : t.energy_reward_ physics with
      | error msg => exact ⟨msg, rfl⟩
      | ok en =>
        rw [hfing]
        exact ⟨"AssertionError", rfl⟩

theorem tiered_compute_missing_fingering_aborts_witness :
    ∃ msg, (t3Ex.compute ()).1 = Except.error msg :=
  tiered_compute_missing_fingering_aborts t3Ex () rfl

/-- C4: For every Simple Aggregator, if a registered reward function raises
during `compute`, the exception propagates unmodified; the functions before
it in registration order have run (in order) and updated their
`reward_terms` entries with this call's values, the raising function's entry
is untouched, and no later function is invoked (the trace stops at the
raising name). -/
theorem composite_compute_raise {P : Type} (c : CompositeReward P) (physics : P)
    (pre post : List (String × RewardFn P)) (name : String) (fn : RewardFn P)
    (f : String → Reward) (msg : String)
    (hfns : c.reward_fns = pre ++ (name, fn) :: post)
    (hnd : (c.reward_fns.map Prod.fst).Nodup)
    (hok : ∀ p ∈ pre, p.2 physics = Except.ok (f p.1))
    (herr : fn physics = Except.error msg) :
    (c.compute physics).1 = Except.error msg ∧
    (c.compute physics).2.2 = pre.map Prod.fst ++ [name] ∧
    (∀ p ∈ pre, dictLookup (c.compute physics).2.1.reward_terms p.1 = some (f p.1)) ∧
    dictLookup (c.compute physics).2.1.reward_terms name = dictLookup c.reward_terms name := by
  have hloop := computeLoop_error physics f name fn post msg pre 0 c.reward_terms [] hok herr
  rw [hfns] at hnd
  simp only [List.map_append, List.map_cons] at hnd
  have hnd' : (pre.map Prod.fst).Nodup := List.Nodup.of_append_left hnd
  have hdisj := List.disjoint_of_nodup_append hnd
  have hname : name ∉ pre.map Prod.fst := fun hmem => hdisj hmem (List.mem_cons_self _ _)
  simp only [CompositeReward.compute, hfns, hloop]
  refine ⟨by trivial, by simp, ?_, ?_⟩
  · intro p hp
    exact dictLookup_termsFold_mem f pre c.reward_terms hnd' p hp
  · exact dictLookup_termsFold_not_mem f pre c.reward_terms name hname

theorem composite_compute_raise_witness :
    (c4Ex.compute ()).1 = Except.error "boom" ∧
    (c4Ex.compute ()).2.2 = [(("a" : String), a4fn)].map Prod.fst ++ ["b"] ∧
    (∀ p ∈ [(("a" : String), a4fn)],
      dictLookup (c4Ex.compute ()).2.1.reward_terms p.1 = some (f4Ex p.1)) ∧
    dictLookup (c4Ex.compute ()).2.1.reward_terms "b" = dictLookup c4Ex.reward_terms "b" :=
  composite_compute_raise c4Ex () [("a", a4fn)] [("c", c4fn)] "b" b4fn f4Ex "boom" rfl
    (by decide)
    (by
      intro p hp
      simp only [List.mem_cons, List.not_mem_nil, or_false] at hp
      subst hp
      rfl)
    rfl

/-- C5: For every Simple Aggregator and unregistered name, `remove` raises the
missing-key (`KeyError`) error and the aggregator (both the function mapping
and the `reward_terms` snapshot) is unchanged. -/
theorem composite_remove_missing {P : Type} (c : CompositeReward P) (name : String)
    (habs : dictLookup c.reward_fns name = none) :
    c.remove name = (Except.error ("KeyError: " ++ name), c) := by
  simp [CompositeReward.remove, dictRemove_error_of_not_mem c.reward_fns name habs]

theorem composite_remove_missing_witness :
    c5Ex.remove "zzz" = (Except.error ("KeyError: " ++ "zzz"), c5Ex) :=
  composite_remove_missing c5Ex "zzz" rfl

/-- C6: For every Tiered Aggregator, `add` succeeds exactly on the two
recognized optional-slot names, fully overwriting that slot and leaving the
rest of the object unchanged; any other name raises the unrecognized-slot
(`ValueError`) error and leaves the whole object unchanged. -/
theorem tiered_add_slots {P : Type} (t : TieredReward P) (name : String)
    (reward_fn : RewardFn P) :
    (name = "fingering_reward" →
      t.add name reward_fn = (Except.ok (), { t with fingering_reward_ := some reward_fn })) ∧
    (name = "forearm_reward" →
      t.add name reward_fn = (Except.ok (), { t with forearm_reward_ := some reward_fn })) ∧
    (name ≠ "fingering_reward" → name ≠ "forearm_reward" →
      t.add name reward_fn = (Except.error ("Cannot add " ++ name), t)) := by
  refine ⟨?_, ?_, ?_⟩
  · intro h
    simp [TieredReward.add, h]
  · intro h
    subst h
    rw [TieredReward.add, if_neg (by decide), if_pos rfl]
  · intro h1 h2
    simp [TieredReward.add, h1, h2]

theorem tiered_add_slots_witness :
    t6Ex.add "fingering_reward" f6Ex =
      (Except.ok (), { t6Ex with fingering_reward_ := some f6Ex }) ∧
    t6Ex.add "bogus" f6Ex = (Except.error ("Cannot add " ++ "bogus"), t6Ex) :=
  ⟨(tiered_add_slots t6Ex "fingering_reward" f6Ex).1 rfl,
   (tiered_add_slots t6Ex "bogus" f6Ex).2.2 (by decide) (by decide)⟩

/-- C7: For every Tiered Aggregator and every name whatsoever, `remove` raises
the unsupported-operation (`ValueError`) error and leaves all five channel
slots unchanged. -/
theorem tiered_remove_always_fails {P : Type} (t : TieredReward P) (name : String) :
    t.remove name = (Except.error ("cannot remove " ++ name), t) :=
  rfl

/-- C8: After a successful `remove(name)` on a Simple Aggregator with distinct
registered names, a subsequent `compute` sums only the remaining terms
(`name` is gone from the registration map while every other registration is
intact), never invokes `name`'s function (it is absent from the trace), does
not update `name`'s `reward_terms` entry, and that entry retains whatever
value it had before the removal. -/
theorem composite_remove_then_compute {P : Type} (c c' : CompositeReward P) (name : String)
    (physics : P) (f : String → Reward)
    (hnd : (c.reward_fns.map Prod.fst).Nodup)
    (hrem : c.remove name = (Except.ok (), c'))
    (hok : ∀ p ∈ c'.reward_fns, p.2 physics = Except.ok (f p.1)) :
    (c'.compute physics).1 = Except.ok ((c'.reward_fns.map fun p => f p.1).sum) ∧
    name ∉ c'.reward_fns.map Prod.fst ∧
    (∀ k, k ≠ name → dictLookup c'.reward_fns k = dictLookup c.reward_fns k) ∧
    name ∉ (c'.compute physics).2.2 ∧
    dictLookup (c'.compute physics).2.1.reward_terms name = dictLookup c.reward_terms name := by
  rcases hdr : dictRemove c.reward_fns name with msg | fns
  · simp [CompositeReward.remove, hdr] at hrem
  · simp only [CompositeReward.remove, hdr, Prod.mk.injEq, true_and] at hrem
    subst hrem
    have hnotmem : name ∉ fns.map Prod.fst :=
      dictRemove_ok_not_mem c.reward_fns fns name hnd hdr
    have hloop := computeLoop_ok physics f fns 0 c.reward_terms [] hok
    simp only [CompositeReward.compute, hloop]
    refine ⟨by simp, hnotmem, ?_, by simpa using hnotmem, ?_⟩
    · intro k hk
      exact dictRemove_ok_lookup_ne c.reward_fns fns name hdr k hk
    · exact dictLookup_termsFold_not_mem f fns c.reward_terms name hnotmem

theorem composite_remove_then_compute_witness :
    (c8Ex'.compute ()).1 = Except.ok ((c8Ex'.reward_fns.map fun p => f8Ex p.1).sum) ∧
    "b" ∉ c8Ex'.reward_fns.map Prod.fst ∧
    (∀ k, k ≠ "b" → dictLookup c8Ex'.reward_fns k = dictLookup c8Ex.reward_fns k) ∧
    "b" ∉ (c8Ex'.compute ()).2.2 ∧
    dictLookup (c8Ex'.compute ()).2.1.reward_terms "b" = dictLookup c8Ex.reward_terms "b" :=
  composite_remove_then_compute c8Ex c8Ex' "b" () f8Ex (by decide) rfl
    (by
      intro p hp
      simp only [c8Ex', List.mem_cons, List.not_mem_nil, or_false] at hp
      subst hp
      rfl)

/-- C9 counterexample: the `reward_terms` property returns the internal dict
object itself (`return self._reward_terms`), so a caller writing through the
returned mapping does change the aggregator's internal snapshot: starting
from an empty snapshot, one write through the returned reference leaves the
internal dict non-empty. This refutes the read-only-view claim at a concrete
input. -/
theorem reward_terms_not_readonly :
    storeWrite store9Ex (obj9Ex.reward_terms) "key_press" 1 obj9Ex.reward_terms_ref ≠
      store9Ex obj9Ex.reward_terms_ref := by
  simp [storeWrite, store9Ex, obj9Ex, CompositeRewardObj.reward_terms, dictInsert]

/-- C9 amended: `reward_terms` exposes the most recent snapshot by reference
(an alias of the internal dict), not as a read-only view: a caller's write
through the returned mapping is exactly a write to the aggregator's internal
snapshot. -/
theorem reward_terms_alias (obj : CompositeRewardObj) (s : Store) (k : String) (v : Reward) :
    storeWrite s (obj.reward_terms) k v obj.reward_terms_ref =
      dictInsert (s obj.reward_terms_ref) k v := by
  simp [storeWrite, CompositeRewardObj.reward_terms]

/-- C10: For every Tiered Aggregator whose fingering channel was never
registered and whose three mandatory channels return normally, `compute`
still invokes the key-press, sustain and energy reward functions — in that
order, with the physics state — before aborting with the contract-violation
failure; the trace shows exactly those three invocations happened when
`AssertionError` surfaces. -/
theorem tiered_compute_missing_fingering_after_calls {P : Type} (t : TieredReward P)
    (physics : P) (kp s en : Reward)
    (hfing : t.fingering_reward_ = none)
    (hkp : t.key_press_reward_ physics = Except.ok kp)
    (hs : t.sustain_reward_ physics = Except.ok s)
    (hen : t.energy_reward_ physics = Except.ok en) :
    t.compute physics =
      (Except.error "AssertionError",
       ["key_press_reward", "sustain_reward", "energy_reward"]) := by
  simp [TieredReward.compute, hkp, hs, hen, hfing]

theorem tiered_compute_missing_fingering_after_calls_witness :
    t10Ex.compute () =
      (Except.error "AssertionError",
       ["key_press_reward", "sustain_reward", "energy_reward"]) :=
  tiered_compute_missing_fingering_after_calls t10Ex () 2 3 4 rfl rfl rfl rfl

end CompositeRewardSpec
